import Mathlib

/-!
Verification of the import-rewriting tool `zimports.py` against its
natural-language specification.  The Python source is shallowly embedded
here: import statements (`ast.Import` / `ast.ImportFrom` nodes, after the
attributes the tool attaches) become the `ImportNode` structure, and each
pipeline function of the source is translated into a pure Lean function of
the same name.  The external collaborators (the `ast` parser and the
`pyflakes` checker) are not part of the repository; where a claim depends
on them they enter either as parameters or as definitions modelled from
the spec's stated contract (marked `Modelled from the spec:`).
-/

namespace Zimports

/-- Python `str.rstrip()` on a newline-free line: drop trailing whitespace
characters (space, tab, newline, carriage return, vertical tab, form feed). -/
def pyIsSpace (c : Char) : Bool :=
  c == ' ' || c == '\t' || c == '\n' || c == '\r' || c == '\x0b' || c == '\x0c'

/-- Python `str.rstrip()`. -/
def rstrip (s : String) : String :=
  String.mk ((s.data.reverse.dropWhile pyIsSpace).reverse)

/-- Python `str.lower()` (restricted to ASCII case mapping, which is what the
sort keys of the source exercise for the claims below). -/
def pyLower (s : String) : String :=
  String.mk (s.data.map Char.toLower)

/-- Python string repetition `s * n`. -/
def strRepeat (s : String) : Nat → String
  | 0 => ""
  | n + 1 => s ++ strRepeat s n

/-- Python `"." .join(parts)`. -/
def joinDot : List String → String
  | [] => ""
  | [x] => x
  | x :: xs => x ++ "." ++ joinDot xs

/-- Python `<` on strings over `List Char`: lexicographic by code point. -/
def pyCharsLt : List Char → List Char → Bool
  | [], [] => false
  | [], _ :: _ => true
  | _ :: _, [] => false
  | a :: as, b :: bs =>
    if a.toNat < b.toNat then true
    else if b.toNat < a.toNat then false
    else pyCharsLt as bs

/-- Python `<` on strings: lexicographic by code point. -/
def pyStrLt (a b : String) : Bool :=
  pyCharsLt a.data b.data

/-- One `(name, asname)` entry of an import statement's name list
(`ast.alias`). -/
structure ImpAlias where
  name : String
  asname : Option String
deriving DecidableEq, Repr

/-- A top-level import statement as the tool sees it: an `ast.Import`
(`is_from = false`, `module = none`, `level = 0`) or an `ast.ImportFrom`
(`is_from = true`), together with the `lineno`, `noqa` and `nosort`
attributes the tool attaches in `_parse_toplevel_imports`. -/
structure ImportNode where
  is_from : Bool
  module : Option String
  level : Nat
  names : List ImpAlias
  lineno : Nat
  noqa : Bool
  nosort : Bool
deriving DecidableEq, Repr

/-- First bound name of a (flattened) declaration, `import_node.names[0]`. -/
def headAlias (nd : ImportNode) : ImpAlias :=
  nd.names.headD ⟨"", none⟩

/-- Rendering of one alias, `"name as asname"` or `"name"`. -/
def aliasText (a : ImpAlias) : String :=
  match a.asname with
  | some s => a.name ++ " as " ++ s
  | none => a.name

/-- Function `_write_singlename_import`: textual form of one single-name declaration,
with the directive comment reproduced. -/
def _write_singlename_import (nd : ImportNode) : String :=
  if nd.is_from then
    "from " ++ strRepeat "." nd.level ++ (nd.module.getD "") ++ " import "
      ++ aliasText (headAlias nd)
      ++ (if nd.noqa then "  # noqa" else "")
      ++ (if nd.nosort then " nosort" else "")
  else
    "import " ++ aliasText (headAlias nd)
      ++ (if nd.noqa then "  # noqa" else "")
      ++ (if nd.nosort then " nosort" else "")

/-- The import block emitted at the import start line in `_write_source`:
each group's renderings followed by one blank separator line per non-empty
group, accumulating the `has_imports` flag. -/
def importBlockCore (grouped : List (List ImportNode)) : List String × Bool :=
  grouped.foldl
    (fun st g =>
      (st.1 ++ g.map _write_singlename_import ++ (if g.isEmpty then [] else [""]),
       st.2 || !g.isEmpty))
    ([], false)

/-- The import block with the trailing separator removed
(`del buf[-1]` when `has_imports`). -/
def importBlock (grouped : List (List ImportNode)) : List String :=
  let st := importBlockCore grouped
  if st.2 then st.1.dropLast else st.1

/-- The line-copying loop of `_write_source`, carrying the 1-based line
number `k`: at `imports_start_on` the import block is emitted, and every
line whose number is not in the gap set is copied rstripped. -/
def writeFrom (grouped : List (List ImportNode)) (gap : List Nat)
    (imports_start_on : Nat) : Nat → List String → List String
  | _, [] => []
  | k, line :: rest =>
    (if k = imports_start_on then importBlock grouped else []) ++
    (if gap.contains k then [] else [rstrip line]) ++
    writeFrom grouped gap imports_start_on (k + 1) rest

/-- Function `_write_source`: copy the original lines, dropping the gap lines and
emitting the grouped import block at the line where imports started. -/
def _write_source (source_lines : List String) (grouped : List (List ImportNode))
    (import_gap_lines : List Nat) (imports_start_on : Nat) : List String :=
  writeFrom grouped import_gap_lines imports_start_on 1 source_lines

/-- The non-import-owned lines of the input, rstripped, in order: the lines
`_write_source` is specified to preserve.  (Spec-side companion definition
used to state the frame property.) -/
def keptFrom (gap : List Nat) : Nat → List String → List String
  | _, [] => []
  | k, line :: rest =>
    (if gap.contains k then [] else [rstrip line]) ++ keptFrom gap (k + 1) rest

lemma keptFrom_sublist_writeFrom (grouped : List (List ImportNode)) (gap : List Nat)
    (start : Nat) : ∀ (lines : List String) (k : Nat),
    (keptFrom gap k lines).Sublist (writeFrom grouped gap start k lines) := by
  intro lines
  induction lines with
  | nil => intro k; simp [keptFrom, writeFrom]
  | cons line rest ih =>
    intro k
    simp only [keptFrom, writeFrom]
    refine List.Sublist.append ?_ (ih (k + 1))
    exact List.sublist_append_of_sublist_right (List.Sublist.refl _)

lemma writeFrom_mem (grouped : List (List ImportNode)) (gap : List Nat)
    (start : Nat) : ∀ (lines : List String) (k : Nat) (s : String),
    s ∈ writeFrom grouped gap start k lines →
    s ∈ importBlock grouped ∨ ∃ l ∈ lines, s = rstrip l := by
  intro lines
  induction lines with
  | nil => intro k s h; simp [writeFrom] at h
  | cons line rest ih =>
    intro k s h
    simp only [writeFrom, List.mem_append] at h
    rcases h with (h | h) | h
    · left
      by_cases hk : k = start
      · rw [if_pos hk] at h; exact h
      · rw [if_neg hk] at h; simp at h
    · right
      by_cases hg : gap.contains k
      · rw [if_pos hg] at h; simp at h
      · rw [if_neg hg] at h
        simp only [List.mem_singleton] at h
        exact ⟨line, by simp, h⟩
    · rcases ih (k + 1) s h with h' | ⟨l, hl, he⟩
      · exact Or.inl h'
      · exact Or.inr ⟨l, by simp [hl], he⟩

/-- Python `str.split(sep)` on the character list, keeping empty pieces:
`"" ↦ [""]`, `".a" ↦ ["", "a"]`. -/
def splitChars (sep : Char) : List Char → List (List Char)
  | [] => [[]]
  | c :: rest =>
    match splitChars sep rest with
    | [] => if c == sep then [[], []] else [[c]]
    | g :: gs => if c == sep then [] :: g :: gs else (c :: g) :: gs

/-- Python `str.split(sep)` for a one-character separator. -/
def pySplit (sep : Char) (s : String) : List String :=
  (splitChars sep s.data).map String.mk

/-- Character-list core of Python `str.startswith`. -/
def charsStart : List Char → List Char → Bool
  | _, [] => true
  | [], _ :: _ => false
  | a :: as, b :: bs => a == b && charsStart as bs

/-- Python `str.startswith`. -/
def pyStartsWith (s pre : String) : Bool :=
  charsStart s.data pre.data

/-- Python truthiness of the optional `module` attribute: `None` and the
empty string are falsy. -/
def optTruthy : Option String → Bool
  | none => false
  | some s => !(s == "")

/-- Function `_is_future`. -/
def _is_future (module : String) : Bool :=
  module == "__future__"

/-- Function `_is_std_lib`, with the process-wide standard-library name registry
(resolved from the environment, outside this repository) passed in as the
list `stdlibNames`: membership of the first dotted token. -/
def _is_std_lib (stdlibNames : List String) (module : String) : Bool :=
  stdlibNames.contains ((pySplit '.' module).headD "")

/-- The sentinel `LAST = chr(127)` of `_get_import_groups`. -/
def lastSentinel : String := "\x7f"

/-- The `True in {module.startswith(mod) for mod in local_modules if mod}`
test of `_get_import_groups`. -/
def localMatch (localMods : List String) (s : String) : Bool :=
  localMods.any (fun m => !(m == "") && pyStartsWith s m)

/-- The module token list of the sort-key computation:
`module.split(".") if module else [""]`. -/
def modTokens (nd : ImportNode) : List String :=
  match nd.module with
  | none => [""]
  | some m => if m == "" then [""] else pySplit '.' m

/-- The `_sort_key` attached to each declaration in `_get_import_groups`:
for a from-import, the module tokens with the first one prefixed by
`level` copies of the sentinel, a separator pair, then the bound name; for
a direct import, the dotted name's tokens; every token paired as
`(lowercased, original)`. -/
def sortKey (nd : ImportNode) : List (String × String) :=
  if nd.is_from then
    let rel := strRepeat lastSentinel nd.level
    let toks :=
      match modTokens nd with
      | [] => [rel]
      | t :: ts => (rel ++ t) :: ts
    toks.map (fun t => (pyLower t, t)) ++
      [("", ""), (pyLower (headAlias nd).name, (headAlias nd).name)]
  else
    (pySplit '.' (headAlias nd).name).map (fun t => (pyLower t, t))

/-- Python `<` on `(lowercased, original)` pairs: lexicographic. -/
def pairLt (a b : String × String) : Bool :=
  pyStrLt a.1 b.1 || (decide (a.1 = b.1) && pyStrLt a.2 b.2)

/-- Python `<` on sort-key tuples: lexicographic, a proper prefix is
smaller. -/
def keyLt : List (String × String) → List (String × String) → Bool
  | [], [] => false
  | [], _ :: _ => true
  | _ :: _, [] => false
  | a :: as, b :: bs => pairLt a b || (decide (a = b) && keyLt as bs)

/-- Non-strict key order (total, since the key comparison is
trichotomous). -/
def keyLe (a b : List (String × String)) : Bool :=
  keyLt a b || decide (a = b)

/-- Stable insertion into a key-sorted list. -/
def insertByKey (nd : ImportNode) : List ImportNode → List ImportNode
  | [] => [nd]
  | x :: xs =>
    if keyLe (sortKey nd) (sortKey x) then nd :: x :: xs
    else x :: insertByKey nd xs

/-- The `sorted(..., key=lambda n: n._sort_key)` calls of
`_get_import_groups`: Python's sort is stable, and the sets it sorts are
modelled as insertion-ordered lists. -/
def sortByKey (l : List ImportNode) : List ImportNode :=
  l.foldr insertByKey []

/-- The five accumulating groups of `_get_import_groups`, in
insertion order before sorting. -/
structure ImportGroups where
  future : List ImportNode
  stdlib : List ImportNode
  package : List ImportNode
  nosort : List ImportNode
  locs : List ImportNode
deriving DecidableEq, Repr

/-- One iteration of the classification loop of `_get_import_groups`,
with the branch order of the source. -/
def classifyStep (stdlibNames : List String) (localMods : List String)
    (g : ImportGroups) (nd : ImportNode) : ImportGroups :=
  if nd.is_from then
    let module := nd.module.getD ""
    if nd.nosort then { g with nosort := g.nosort ++ [nd] }
    else if 0 < nd.level then { g with locs := g.locs ++ [nd] }
    else if !optTruthy nd.module || localMatch localMods module then
      { g with locs := g.locs ++ [nd] }
    else if optTruthy nd.module && _is_future module then
      { g with future := g.future ++ [nd] }
    else if optTruthy nd.module && _is_std_lib stdlibNames module then
      { g with stdlib := g.stdlib ++ [nd] }
    else { g with package := g.package ++ [nd] }
  else
    let name := (headAlias nd).name
    if nd.nosort then { g with nosort := g.nosort ++ [nd] }
    else if localMatch localMods name then { g with locs := g.locs ++ [nd] }
    else if _is_std_lib stdlibNames name then { g with stdlib := g.stdlib ++ [nd] }
    else { g with package := g.package ++ [nd] }

/-- Function `_get_import_groups`: classify every declaration, then return
`(future, stdlib, package, nosort, locals_)` with the first three and the
last sorted by sort key and `nosort` kept in original order. -/
def _get_import_groups (stdlibNames : List String) (imports : List ImportNode)
    (local_modules : String) :
    List ImportNode × List ImportNode × List ImportNode × List ImportNode
      × List ImportNode :=
  let localMods := pySplit ',' local_modules
  let g := imports.foldl (classifyStep stdlibNames localMods) ⟨[], [], [], [], []⟩
  (sortByKey g.future, sortByKey g.stdlib, sortByKey g.package, g.nosort,
    sortByKey g.locs)

/-- The second `_write_source` call of `_rewrite_source`: the groups are
passed in the order `[future, stdlib, package, locals_, nosort]`. -/
def rewriteImports (stdlibNames : List String) (source_lines : List String)
    (imports : List ImportNode) (local_modules : String)
    (import_gap_lines : List Nat) (imports_start_on : Nat) : List String :=
  let gs := _get_import_groups stdlibNames imports local_modules
  _write_source source_lines [gs.1, gs.2.1, gs.2.2.1, gs.2.2.2.2, gs.2.2.2.1]
    import_gap_lines imports_start_on

/-- C1 (counterexample): the claim that every non-import-owned line appears
in the rewritten output byte-for-byte *including trailing whitespace* is
false: `_write_source` copies lines through `rstrip` (and `main` already
rstrips each line when reading the file), so on the one-line input
`"x = 1  "` with no imports at all the output is `"x = 1"` and the original
line does not occur in the output. -/
theorem C1_counterexample :
    _write_source ["x = 1  "] [] [] 0 = ["x = 1"] ∧
    "x = 1  " ∉ _write_source ["x = 1  "] [] [] 0 := by
  decide

/-- C1 (amended): in `_write_source`, every line of the input whose line
number is not in the gap set appears in the output exactly as the input
line with trailing whitespace stripped, in the original order (the
rstripped non-gap lines form a sublist of the output); and every output
line is either part of the emitted import block or the rstripped copy of
some input line, so non-import lines are otherwise untouched. -/
theorem C1_amended (source_lines : List String) (grouped : List (List ImportNode))
    (import_gap_lines : List Nat) (imports_start_on : Nat) :
    (keptFrom import_gap_lines 1 source_lines).Sublist
      (_write_source source_lines grouped import_gap_lines imports_start_on) ∧
    ∀ s ∈ _write_source source_lines grouped import_gap_lines imports_start_on,
      s ∈ importBlock grouped ∨ ∃ l ∈ source_lines, s = rstrip l := by
  constructor
  · exact keptFrom_sublist_writeFrom grouped import_gap_lines imports_start_on source_lines 1
  · exact writeFrom_mem grouped import_gap_lines imports_start_on source_lines 1

lemma classifyStep_nosort (st lm : List String) (g : ImportGroups) (nd : ImportNode) :
    (classifyStep st lm g nd).nosort =
      g.nosort ++ (if nd.nosort then [nd] else []) := by
  cases hf : nd.is_from <;> cases hn : nd.nosort <;>
    simp only [classifyStep, hf, hn, Bool.false_eq_true, if_true, if_false] <;>
    (repeat' split) <;> simp

lemma foldl_classify_nosort (st lm : List String) :
    ∀ (imports : List ImportNode) (g : ImportGroups),
    (imports.foldl (classifyStep st lm) g).nosort =
      g.nosort ++ imports.filter (fun nd => nd.nosort) := by
  intro imports
  induction imports with
  | nil => intro g; simp
  | cons nd rest ih =>
    intro g
    simp only [List.foldl_cons, ih, classifyStep_nosort, List.filter_cons]
    cases nd.nosort <;> simp

/-- The lines one group contributes to the import block: its renderings
followed by one blank separator when non-empty.  (Spec-side companion
definition used to state the group-order property.) -/
def groupBlock (g : List ImportNode) : List String :=
  g.map _write_singlename_import ++ (if g.isEmpty then [] else [""])

lemma importBlock_five (g1 g2 g3 g4 g5 : List ImportNode) :
    importBlock [g1, g2, g3, g4, g5] =
      if g1.isEmpty && g2.isEmpty && g3.isEmpty && g4.isEmpty && g5.isEmpty then []
      else (groupBlock g1 ++ groupBlock g2 ++ groupBlock g3 ++ groupBlock g4 ++
            groupBlock g5).dropLast := by
  cases g1 <;> cases g2 <;> cases g3 <;> cases g4 <;> cases g5 <;>
    simp [importBlock, importBlockCore, groupBlock, List.append_assoc]

/-- C4 (counterexample): for the input `from . import x  # noqa nosort`
followed by `from . import y`, the rewritten output places the passthrough
line of `x` *after* the sorted local group containing `y`, not at its
original position among the imports (it was first in the input). -/
theorem C4_counterexample :
    rewriteImports [] ["from . import x  # noqa nosort", "from . import y"]
      [⟨true, none, 1, [⟨"x", none⟩], 1, true, true⟩,
       ⟨true, none, 1, [⟨"y", none⟩], 2, false, false⟩]
      "" [1, 2] 1 =
      ["from . import y", "", "from . import x  # noqa nosort"] := by
  decide

/-- C4 (amended): the rewritten output emits the sorted groups in the order
future, standard-library, third-party, local, and then the passthrough
(`nosort`) group *last*; the passthrough group preserves the original
relative order of its declarations, but not their original position among
the imports. -/
theorem C4_amended (stdlibNames : List String) (imports : List ImportNode)
    (local_modules : String) :
    (_get_import_groups stdlibNames imports local_modules).2.2.2.1 =
      imports.filter (fun nd => nd.nosort) ∧
    (∀ (source_lines : List String) (import_gap_lines : List Nat)
        (imports_start_on : Nat),
      rewriteImports stdlibNames source_lines imports local_modules
          import_gap_lines imports_start_on =
        _write_source source_lines
          [(_get_import_groups stdlibNames imports local_modules).1,
           (_get_import_groups stdlibNames imports local_modules).2.1,
           (_get_import_groups stdlibNames imports local_modules).2.2.1,
           (_get_import_groups stdlibNames imports local_modules).2.2.2.2,
           (_get_import_groups stdlibNames imports local_modules).2.2.2.1]
          import_gap_lines imports_start_on) ∧
    ∀ g1 g2 g3 g4 g5 : List ImportNode,
      importBlock [g1, g2, g3, g4, g5] =
        if g1.isEmpty && g2.isEmpty && g3.isEmpty && g4.isEmpty && g5.isEmpty
        then []
        else (groupBlock g1 ++ groupBlock g2 ++ groupBlock g3 ++ groupBlock g4 ++
              groupBlock g5).dropLast := by
  refine ⟨?_, fun _ _ _ => rfl, importBlock_five⟩
  simp [_get_import_groups, foldl_classify_nosort]

lemma strRepeat_sentinel_data (l : Nat) :
    (strRepeat lastSentinel l).data = List.replicate l '\x7f' := by
  induction l with
  | zero => rfl
  | succ n ih =>
    show (lastSentinel ++ strRepeat lastSentinel n).data = _
    rw [String.data_append, ih]
    rfl

lemma pyStrLt_sentinel (t : String) (l : Nat) (hl : 1 ≤ l)
    (hc : ∀ c, (pyLower t).data.head? = some c → c.toNat < 127) :
    pyStrLt (pyLower t) (pyLower (strRepeat lastSentinel l ++ t)) = true := by
  obtain ⟨l', rfl⟩ : ∃ l', l = l' + 1 := ⟨l - 1, by omega⟩
  unfold pyStrLt
  have hdata : (pyLower (strRepeat lastSentinel (l' + 1) ++ t)).data =
      '\x7f' :: (List.replicate l' '\x7f' ++ (pyLower t).data) := by
    show ((strRepeat lastSentinel (l' + 1) ++ t).data.map Char.toLower) = _
    rw [String.data_append, strRepeat_sentinel_data, List.map_append,
      List.map_replicate]
    have hch : Char.toLower '\x7f' = '\x7f' := rfl
    rw [hch, List.replicate_succ]
    rfl
  rw [hdata]
  cases h : (pyLower t).data with
  | nil => simp [pyCharsLt]
  | cons c cs =>
    have hcn : c.toNat < 127 := hc c (by rw [h]; rfl)
    have h127 : ('\x7f').toNat = 127 := rfl
    simp [pyCharsLt, h127, hcn]

/-- C8 (amended): within the sort keys computed by `_get_import_groups`, a
relative import (`level ≥ 1`) receives a key strictly greater than any
absolute from-import sharing the same leading module token, *provided* the
(lowercased) leading token is empty or starts with a character of code
point below 127 (the sentinel `chr(127)` sorts after ASCII but not after
all alphanumeric characters). -/
theorem C8_amended (a r : ImportNode) (t : String) (restA restR : List String)
    (haf : a.is_from = true) (hrf : r.is_from = true)
    (hal : a.level = 0) (hrl : 1 ≤ r.level)
    (hat : modTokens a = t :: restA) (hrt : modTokens r = t :: restR)
    (hc : ∀ c, (pyLower t).data.head? = some c → c.toNat < 127) :
    keyLt (sortKey a) (sortKey r) = true := by
  unfold sortKey
  rw [haf, hrf, hat, hrt, hal]
  simp only [if_true]
  have hpair : pairLt
      (pyLower (strRepeat lastSentinel 0 ++ t), strRepeat lastSentinel 0 ++ t)
      (pyLower (strRepeat lastSentinel r.level ++ t),
        strRepeat lastSentinel r.level ++ t) = true := by
    unfold pairLt
    have h0 : strRepeat lastSentinel 0 ++ t = t := rfl
    rw [h0, pyStrLt_sentinel t r.level hrl hc]
    simp
  simp [keyLt, hpair]

/-- C8 (counterexample): for a module whose leading token starts with a
non-ASCII letter, the sentinel does *not* sort after it: with local module
`é`, the relative import `from .é import c` receives a sort key strictly
*smaller* than the absolute local `from é import b`, and it is placed
*before* it in the sorted local group. -/
theorem C8_counterexample :
    keyLt (sortKey ⟨true, some "é", 1, [⟨"c", none⟩], 2, false, false⟩)
          (sortKey ⟨true, some "é", 0, [⟨"b", none⟩], 1, false, false⟩) = true ∧
    (_get_import_groups [] [⟨true, some "é", 0, [⟨"b", none⟩], 1, false, false⟩,
        ⟨true, some "é", 1, [⟨"c", none⟩], 2, false, false⟩] "é").2.2.2.2 =
      [⟨true, some "é", 1, [⟨"c", none⟩], 2, false, false⟩,
       ⟨true, some "é", 0, [⟨"b", none⟩], 1, false, false⟩] := by
  decide

/-- C8 (witness): the amended theorem at a concrete ASCII instance:
`from pkg.sub import b` (absolute) sorts strictly before
`from ..pkg import c` (relative, level 2). -/
theorem C8_witness :
    keyLt (sortKey ⟨true, some "pkg.sub", 0, [⟨"b", none⟩], 1, false, false⟩)
          (sortKey ⟨true, some "pkg", 2, [⟨"c", none⟩], 2, false, false⟩) = true :=
  C8_amended _ _ "pkg" ["sub"] [] rfl rfl rfl (by decide) (by decide) (by decide)
    (fun c h => by
      have h' : 'p' = c := Option.some.inj h
      rw [← h']
      decide)

/-- The identity key of `_dedupe_single_imports`: `(name, asname)` for a
direct import, `(module, level, name, asname)` for a from-import.  The two
tuple shapes can never be equal, which the leading discriminant models. -/
def DedupeKey : Type := Bool × Option String × Nat × String × Option String

instance : DecidableEq DedupeKey := by
  unfold DedupeKey
  infer_instance

/-- The `hash_key` computed for one (already flattened) declaration. -/
def dedupeKey (nd : ImportNode) : DedupeKey :=
  if nd.is_from then
    (true, nd.module, nd.level, (headAlias nd).name, (headAlias nd).asname)
  else
    (false, none, 0, (headAlias nd).name, (headAlias nd).asname)

/-- Enumeration of a list with indices starting at `k`; the index models
Python object identity (`seen[hash_key] is import_node`), since the
flattener always yields fresh objects. -/
def indexedFrom (k : Nat) : List ImportNode → List (Nat × ImportNode)
  | [] => []
  | x :: xs => (k, x) :: indexedFrom (k + 1) xs

/-- Lookup in the `seen` dict, modelled as an association list from key to
(index of the kept node, its `noqa` flag); a new binding shadows by
consing. -/
def seenLookup : List (DedupeKey × Nat × Bool) → DedupeKey → Option (Nat × Bool)
  | [], _ => none
  | (k', v) :: rest, k => if k = k' then some v else seenLookup rest k

/-- One iteration of the `seen` loop of `_dedupe_single_imports`: a first
occurrence is stored; a later duplicate replaces the stored one exactly
when it is `noqa` and the stored one is not. -/
def dedupeStep (seen : List (DedupeKey × Nat × Bool)) (p : Nat × ImportNode) :
    List (DedupeKey × Nat × Bool) :=
  match seenLookup seen (dedupeKey p.2) with
  | none => (dedupeKey p.2, p.1, p.2.noqa) :: seen
  | some v =>
    if p.2.noqa && !v.2 then (dedupeKey p.2, p.1, p.2.noqa) :: seen else seen

/-- Function `_dedupe_single_imports`: survivors are the nodes whose index is the one
stored for their key after the whole pass, in original order; every other
node is dropped and counted. -/
def _dedupe_single_imports (nodes : List ImportNode) : List ImportNode × Nat :=
  let pairs := indexedFrom 0 nodes
  let seen := pairs.foldl dedupeStep []
  let survivors := (pairs.filter
    (fun p => decide ((seenLookup seen (dedupeKey p.2)).map (fun v => v.1) = some p.1))).map
    (fun p => p.2)
  (survivors, nodes.length - survivors.length)

/-- The kept entry per key in the spec's formulation: the first-seen
occurrence flagged suppress-removal if any occurrence is flagged, else the
plain first-seen occurrence (with its flag).  (Spec-side companion
definition.) -/
def specSeen (pairs : List (Nat × ImportNode)) (k : DedupeKey) : Option (Nat × Bool) :=
  match pairs.find? (fun q => decide (dedupeKey q.2 = k) && q.2.noqa) with
  | some q => some (q.1, true)
  | none =>
    (pairs.find? (fun q => decide (dedupeKey q.2 = k))).map (fun q => (q.1, q.2.noqa))

/-- The index kept per key in the spec's formulation. -/
def specKeptIndex (pairs : List (Nat × ImportNode)) (k : DedupeKey) : Option Nat :=
  (specSeen pairs k).map (fun v => v.1)

lemma find?_snoc {α : Type} (l : List α) (x : α) (f : α → Bool) :
    (l ++ [x]).find? f =
      match l.find? f with
      | some y => some y
      | none => if f x then some x else none := by
  induction l with
  | nil => cases hf : f x <;> simp [List.find?, hf]
  | cons a as ih =>
    by_cases ha : f a
    · simp [List.find?_cons_of_pos _ ha]
    · simp only [List.cons_append, List.find?_cons_of_neg _ ha, ih]

lemma dedupeStep_spec (prior : List (Nat × ImportNode))
    (seen : List (DedupeKey × Nat × Bool)) (p : Nat × ImportNode)
    (h : ∀ k, seenLookup seen k = specSeen prior k) :
    ∀ k, seenLookup (dedupeStep seen p) k = specSeen (prior ++ [p]) k := by
  intro k
  by_cases hk : k = dedupeKey p.2
  · subst hk
    cases hfn : prior.find?
        (fun q => decide (dedupeKey q.2 = dedupeKey p.2) && q.2.noqa) with
    | some q =>
      -- a suppress-removal occurrence already exists: nothing changes
      have hl : seenLookup seen (dedupeKey p.2) = some (q.1, true) := by
        rw [h]; unfold specSeen; rw [hfn]
      have hstep : dedupeStep seen p = seen := by
        unfold dedupeStep; rw [hl]; simp
      rw [hstep, hl]
      unfold specSeen
      rw [find?_snoc, hfn]
    | none =>
      cases hfp : prior.find? (fun q => decide (dedupeKey q.2 = dedupeKey p.2)) with
      | none =>
        -- key not seen before: p is stored
        have hl : seenLookup seen (dedupeKey p.2) = none := by
          rw [h]; unfold specSeen; rw [hfn, hfp]; rfl
        have hstep : dedupeStep seen p =
            (dedupeKey p.2, p.1, p.2.noqa) :: seen := by
          unfold dedupeStep; rw [hl]
        rw [hstep]
        unfold specSeen
        rw [find?_snoc, find?_snoc, hfn, hfp]
        cases hq : p.2.noqa <;> simp [seenLookup, hq]
      | some q =>
        -- key seen, kept entry not suppress-removal
        have hqn : q.2.noqa = false := by
          by_contra hqq
          rw [Bool.not_eq_false] at hqq
          have hne : prior.find?
              (fun r => decide (dedupeKey r.2 = dedupeKey p.2) && r.2.noqa) ≠ none := by
            intro hcontra
            have h1 := List.find?_eq_none.mp hcontra q (List.mem_of_find?_eq_some hfp)
            have h2 := List.find?_some hfp
            simp [h2, hqq] at h1
          exact hne hfn
        have hl : seenLookup seen (dedupeKey p.2) = some (q.1, q.2.noqa) := by
          rw [h]; unfold specSeen; rw [hfn, hfp]; rfl
        cases hq : p.2.noqa with
        | true =>
          have hstep : dedupeStep seen p =
              (dedupeKey p.2, p.1, p.2.noqa) :: seen := by
            unfold dedupeStep; rw [hl]; simp [hq, hqn]
          rw [hstep]
          unfold specSeen
          rw [find?_snoc, hfn]
          simp [seenLookup, hq]
        | false =>
          have hstep : dedupeStep seen p = seen := by
            unfold dedupeStep; rw [hl]; simp [hq]
          rw [hstep, hl]
          unfold specSeen
          rw [find?_snoc, find?_snoc, hfn, hfp]
          simp [hq]
  · -- a different key is unaffected by this step
    have hpq : ∀ f : (Nat × ImportNode) → Bool,
        (∀ q, f q = true → dedupeKey q.2 = k) →
        (prior ++ [p]).find? f = prior.find? f := by
      intro f hf
      rw [find?_snoc]
      cases hfp : prior.find? f with
      | some q => rfl
      | none =>
        have : f p = false := by
          cases hfp2 : f p
          · rfl
          · exact absurd (hf p hfp2) (fun he => hk he.symm)
        simp [this]
    have h1 := hpq (fun q => decide (dedupeKey q.2 = k) && q.2.noqa)
      (fun q hq => by
        have := (Bool.and_eq_true _ _).mp hq
        exact of_decide_eq_true this.1)
    have h2 := hpq (fun q => decide (dedupeKey q.2 = k))
      (fun q hq => of_decide_eq_true hq)
    unfold specSeen
    rw [h1, h2]
    have hstep : seenLookup (dedupeStep seen p) k = seenLookup seen k := by
      unfold dedupeStep
      cases seenLookup seen (dedupeKey p.2) with
      | none => simp [seenLookup, hk]
      | some v =>
        by_cases hci : p.2.noqa && !v.2
        · simp [hci, seenLookup, hk]
        · simp [hci]
    rw [hstep, h k]
    rfl

lemma foldl_dedupe_spec :
    ∀ (pairs prior : List (Nat × ImportNode)) (seen : List (DedupeKey × Nat × Bool)),
    (∀ k, seenLookup seen k = specSeen prior k) →
    ∀ k, seenLookup (pairs.foldl dedupeStep seen) k = specSeen (prior ++ pairs) k := by
  intro pairs
  induction pairs with
  | nil => intro prior seen h k; simpa using h k
  | cons p ps ih =>
    intro prior seen h k
    have hstep := dedupeStep_spec prior seen p h
    have := ih (prior ++ [p]) (dedupeStep seen p) hstep k
    simpa using this

lemma indexedFrom_filter_map_sublist (f : Nat × ImportNode → Bool) :
    ∀ (nodes : List ImportNode) (k : Nat),
    (((indexedFrom k nodes).filter f).map (fun p => p.2)).Sublist nodes := by
  intro nodes
  induction nodes with
  | nil => intro k; simp [indexedFrom]
  | cons x xs ih =>
    intro k
    simp only [indexedFrom, List.filter_cons]
    by_cases hf : f (k, x)
    · simp only [hf, if_true, List.map_cons]
      exact List.Sublist.cons₂ x (ih (k + 1))
    · simp only [hf]
      exact List.Sublist.cons x (ih (k + 1))

/-- C5: the deduplicator keeps, per identity key, the first-seen
declaration unless some later duplicate is flagged suppress-removal while
the first-seen one is not — equivalently the first suppress-removal-flagged
occurrence when one exists, else the first occurrence; the survivors keep
their original relative order (they form a sublist of the input), and every
non-kept duplicate is dropped and counted. -/
theorem C5_dedupe (nodes : List ImportNode) :
    (_dedupe_single_imports nodes).1 =
      ((indexedFrom 0 nodes).filter
        (fun p => decide (specKeptIndex (indexedFrom 0 nodes) (dedupeKey p.2) = some p.1))).map
        (fun p => p.2) ∧
    (_dedupe_single_imports nodes).1.Sublist nodes ∧
    (_dedupe_single_imports nodes).2 =
      nodes.length - (_dedupe_single_imports nodes).1.length := by
  have hseen : ∀ k, seenLookup ((indexedFrom 0 nodes).foldl dedupeStep []) k =
      specSeen (indexedFrom 0 nodes) k := by
    intro k
    have := foldl_dedupe_spec (indexedFrom 0 nodes) [] []
      (fun k => by simp [seenLookup, specSeen, List.find?]) k
    simpa using this
  refine ⟨?_, ?_, rfl⟩
  · show ((indexedFrom 0 nodes).filter _).map _ = _
    congr 1
    apply List.filter_congr
    intro p _
    simp only [decide_eq_decide]
    rw [hseen (dedupeKey p.2)]
    rfl
  · exact indexedFrom_filter_map_sublist _ nodes 0

/-- The `warning_key` computed in `_remove_unused_names` for a from-import:
level dots, the module with a trailing dot when truthy, and the dot-joined
rendered name list. -/
def warningKey (nd : ImportNode) : String :=
  strRepeat "." nd.level ++
    (match nd.module with
     | some m => if m == "" then "" else m ++ "."
     | none => "") ++
    joinDot (nd.names.map aliasText)

/-- Processing of one declaration in `_remove_unused_names`: a from-import
whose `(warning_key, lineno)` pair is scheduled for removal has its name
list cleared (counting 1); a direct import drops each name whose
`(name, lineno)` pair is scheduled (counting the names dropped). -/
def removeOne (remove_imports : List (String × Nat)) (nd : ImportNode) :
    ImportNode × Nat :=
  if nd.is_from then
    if (warningKey nd, nd.lineno) ∈ remove_imports then
      ({ nd with names := [] }, 1)
    else (nd, 0)
  else
    let new := nd.names.filter (fun a => decide ((a.name, nd.lineno) ∉ remove_imports))
    ({ nd with names := new }, nd.names.length - new.length)

/-- Function `_remove_unused_names`: warnings on lines of `noqa` declarations are
discarded, every remaining warning clears the matching binding, and
declarations left with no bindings are dropped. -/
def _remove_unused_names (imports : List ImportNode)
    (warnings : List (String × Nat)) : List ImportNode × Nat :=
  let noqa_lines := (imports.filter (fun nd => nd.noqa)).map (fun nd => nd.lineno)
  let remove_imports := warnings.filter (fun w => !(noqa_lines.contains w.2))
  let results := imports.map (removeOne remove_imports)
  ((results.map (fun r => r.1)).filter (fun nd => !nd.names.isEmpty),
    (results.map (fun r => r.2)).sum)

/-- C7: a declaration carrying the suppress-removal directive keeps its
bindings intact regardless of any warning collected for its line: every
`noqa` declaration with a non-empty name list survives
`_remove_unused_names` unchanged. -/
theorem C7_noqa_kept (imports : List ImportNode) (warnings : List (String × Nat))
    (nd : ImportNode) (hmem : nd ∈ imports) (hnoqa : nd.noqa = true)
    (hnames : nd.names ≠ []) :
    nd ∈ (_remove_unused_names imports warnings).1 := by
  have hline : nd.lineno ∈
      (imports.filter (fun x => x.noqa)).map (fun x => x.lineno) :=
    List.mem_map_of_mem _ (List.mem_filter.mpr ⟨hmem, hnoqa⟩)
  have hrm : ∀ w ∈ warnings.filter
      (fun w => !(((imports.filter (fun x => x.noqa)).map
        (fun x => x.lineno)).contains w.2)),
      w.2 ≠ nd.lineno := by
    intro w hw heq
    have h2 := (List.mem_filter.mp hw).2
    rw [Bool.not_eq_true'] at h2
    have hc : ((imports.filter (fun x => x.noqa)).map
        (fun x => x.lineno)).contains w.2 = true :=
      List.elem_iff.mpr (heq ▸ hline)
    rw [hc] at h2
    exact absurd h2 (by decide)
  have hfix : removeOne (warnings.filter
      (fun w => !(((imports.filter (fun x => x.noqa)).map
        (fun x => x.lineno)).contains w.2))) nd = (nd, 0) := by
    obtain ⟨isf, mo, lv, nm, ln, nq, ns⟩ := nd
    unfold removeOne
    cases isf
    · have hkeep : nm.filter
          (fun a => decide ((a.name, ln) ∉ warnings.filter
            (fun w => !(((imports.filter (fun x => x.noqa)).map
              (fun x => x.lineno)).contains w.2)))) = nm := by
        apply List.filter_eq_self.mpr
        intro a _
        rw [decide_eq_true_iff]
        intro hin
        exact hrm _ hin rfl
      simp only [Bool.false_eq_true, if_false, hkeep]
      simp
    · have hnot : (warningKey ⟨true, mo, lv, nm, ln, nq, ns⟩, ln) ∉ warnings.filter
          (fun w => !(((imports.filter (fun x => x.noqa)).map
            (fun x => x.lineno)).contains w.2)) := by
        intro hin
        exact hrm _ hin rfl
      simp only [if_true]
      rw [if_neg hnot]
  show nd ∈ ((imports.map (removeOne (warnings.filter
      (fun w => !(((imports.filter (fun x => x.noqa)).map
        (fun x => x.lineno)).contains w.2))))).map (fun r => r.1)).filter
      (fun nd => !nd.names.isEmpty)
  rw [List.mem_filter]
  constructor
  · rw [List.map_map]
    refine List.mem_map.mpr ⟨nd, hmem, ?_⟩
    show (removeOne _ nd).1 = nd
    rw [hfix]
  · simpa [List.isEmpty_iff] using hnames

/-- C7 (witness): `import foo as bar  # noqa` with a warning for `foo` on
its line survives the remover. -/
theorem C7_witness :
    (⟨false, none, 0, [⟨"foo", some "bar"⟩], 1, true, false⟩ : ImportNode) ∈
      (_remove_unused_names
        [⟨false, none, 0, [⟨"foo", some "bar"⟩], 1, true, false⟩]
        [("foo", 1)]).1 :=
  C7_noqa_kept _ _ _ (by decide) rfl (by decide)

/-- The `import_proportion` computation of `_rewrite_source`: `0` when the
file has no code lines, else
`(imports + star_imports_removed - names_from_star) / code_lines * 100`
(Python float arithmetic modelled by exact rationals). -/
def import_proportion (numImports star_imports_removed names_from_star
    codeLines : Nat) : ℚ :=
  if codeLines = 0 then 0
  else ((numImports : ℚ) + star_imports_removed - names_from_star) / codeLines * 100

/-- The guard `keep_threshhold is None or import_proportion < keep_threshhold`
of `_rewrite_source`. -/
def runsRemover (keep_threshhold : Option Int) (p : ℚ) : Bool :=
  match keep_threshhold with
  | none => true
  | some t => decide (p < (t : ℚ))

/-- Lines 77-91 of `_rewrite_source`: the unused-name remover is applied
exactly when the guard holds. -/
def removalStage (keep_threshhold : Option Int) (imports : List ImportNode)
    (warnings : List (String × Nat))
    (star_imports_removed names_from_star codeLines : Nat) : List ImportNode :=
  if runsRemover keep_threshhold
      (import_proportion imports.length star_imports_removed names_from_star
        codeLines)
  then (_remove_unused_names imports warnings).1
  else imports

/-- C6: the unused-name remover runs iff the configured threshold is null
or the computed density is strictly below it, where the density is
`(surviving_declarations + star_imports_removed - names_from_star) /
code_lines * 100` and `0` when there are no code lines. -/
theorem C6_density_gate (t : Option Int) (imports : List ImportNode)
    (warnings : List (String × Nat)) (a b c : Nat) :
    (runsRemover t (import_proportion imports.length a b c) = true ↔
      (t = none ∨ ∃ n : Int, t = some n ∧
        import_proportion imports.length a b c < (n : ℚ))) ∧
    import_proportion imports.length a b 0 = 0 ∧
    (c ≠ 0 → import_proportion imports.length a b c =
      (((imports.length : Int) + a - b : Int) : ℚ) / c * 100) ∧
    removalStage t imports warnings a b c =
      (if runsRemover t (import_proportion imports.length a b c) then
        (_remove_unused_names imports warnings).1 else imports) := by
  refine ⟨?_, by simp [import_proportion], ?_, rfl⟩
  · cases t with
    | none => simp [runsRemover]
    | some n =>
      simp only [runsRemover, decide_eq_true_iff]
      constructor
      · intro hlt
        exact Or.inr ⟨n, rfl, hlt⟩
      · rintro (h | ⟨m, hm, hlt⟩)
        · exact absurd h (by simp)
        · cases Option.some.inj hm
          exact hlt
  · intro hc
    unfold import_proportion
    rw [if_neg hc]
    push_cast
    ring

/-- C6 (witness): the density formula at two code lines, one import and one
star import removed. -/
theorem C6_witness :
    import_proportion ([] : List ImportNode).length 1 0 2 =
      ((((List.length ([] : List ImportNode)) : Int) + 1 - 0 : Int) : ℚ) / 2 * 100 :=
  (C6_density_gate (some 50) [] [] 1 0 2).2.2.1 (by decide)

/-- Python truthiness of the `heuristic_unused` option in
`if options.heuristic_unused:`: `None` and `0` are falsy. -/
def truthyOpt : Option Int → Bool
  | none => false
  | some n => !(n == 0)

/-- The conflict guard of `main`: with `-k`, a *truthy* `--heuristic-unused`
value raises the mutual-exclusion error. -/
def conflictRaised (keep_unused : Bool) (heuristic_unused : Option Int) : Bool :=
  keep_unused && truthyOpt heuristic_unused

/-- The per-file loop of `main`, parameterised by the rewrite pipeline
`rewriteFile` (it closes over the external parser and checker): each file
is read with its lines rstripped, then the conflict check runs, with `-k`
the threshold becomes `0`, and the rewritten output is collected; a raise
aborts the loop, keeping the outputs already produced. -/
def mainLoop (rewriteFile : Option Int → List String → List String)
    (keep_unused : Bool) :
    Option Int → List (List String) → List (List String) × Option String
  | _, [] => ([], none)
  | h, f :: fs =>
    if conflictRaised keep_unused h then
      ([], some "keep-unused and heuristic-unused are mutually exclusive")
    else
      let h' := if keep_unused then some 0 else h
      let rest := mainLoop rewriteFile keep_unused h' fs
      (rewriteFile h' (f.map rstrip) :: rest.1, rest.2)

/-- C9 (counterexample): supplying both `-k` and `--heuristic-unused 0`
does *not* fail: `0` is falsy in the `if options.heuristic_unused:` check,
so no configuration-conflict error is raised and the file is processed
(here with the identity pipeline). -/
theorem C9_counterexample :
    conflictRaised true (some 0) = false ∧
    (mainLoop (fun _ ls => ls) true (some 0) [["x = 1"]]).2 = none ∧
    (mainLoop (fun _ ls => ls) true (some 0) [["x = 1"]]).1 = [["x = 1"]] := by
  decide

/-- C9 (amended): supplying both `-k` and a *non-zero*
`--heuristic-unused` value fails with the configuration-conflict error on
the first file, before any rewrite runs, and no output is produced for any
file. -/
theorem C9_amended (rewriteFile : Option Int → List String → List String)
    (n : Int) (hn : n ≠ 0) (f : List String) (fs : List (List String)) :
    mainLoop rewriteFile true (some n) (f :: fs) =
      ([], some "keep-unused and heuristic-unused are mutually exclusive") := by
  have hc : conflictRaised true (some n) = true := by
    simp [conflictRaised, truthyOpt, hn]
  simp [mainLoop, hc]

/-- C9 (witness): the amended behaviour at `--heuristic-unused 5 -k` on one
file. -/
theorem C9_witness :
    mainLoop (fun _ ls => ls) true (some 5) [["import os"]] =
      ([], some "keep-unused and heuristic-unused are mutually exclusive") :=
  C9_amended (fun _ ls => ls) 5 (by decide) ["import os"] []

/-- One message of a drilling pass (`for warning in warnings.messages` in
`_drill_for_warnings`): an unseen warning on a non-indented line is
collected, its line is blanked in the working text and its line number
marked seen; otherwise the state is unchanged.  The state is
(working lines, seen linenos, collected warnings, has_warnings). -/
def drillPassStep {α : Type} (indented : α → Bool) (blankVal : α)
    (st : List α × List Nat × List (String × Nat) × Bool) (w : String × Nat) :
    List α × List Nat × List (String × Nat) × Bool :=
  if w.2 ∈ st.2.1 then st
  else if indented (st.1.getD (w.2 - 1) blankVal) then st
  else (st.1.set (w.2 - 1) blankVal, w.2 :: st.2.1, st.2.2.1 ++ [w], true)

/-- The reparse-and-recheck loop of `_drill_for_warnings`, generic in the
checker `check` (the external pyflakes collaborator, re-run on the blanked
working text each pass): one pass folds over the current check results; if
anything was collected the loop repeats.  `fuel` bounds the iterations and
`none` reports exhausted fuel; the termination theorem shows that
`lines.length + 1` always suffices when the checker reports line numbers
of the working text. -/
def drillAux {α : Type} (check : List α → List (String × Nat))
    (indented : α → Bool) (blankVal : α) :
    Nat → List α → List Nat → List (String × Nat) → Option (List (String × Nat))
  | 0, _, _, _ => none
  | fuel + 1, lines, seen, ws =>
    let st := (check lines).foldl (drillPassStep indented blankVal)
      (lines, seen, ws, false)
    if st.2.2.2 then drillAux check indented blankVal fuel st.1 st.2.1 st.2.2.1
    else some st.2.2.1

/-- Function `_drill_for_warnings` with the fuel the termination theorem justifies. -/
def _drill_for_warnings {α : Type} (check : List α → List (String × Nat))
    (indented : α → Bool) (blankVal : α) (source_lines : List α) :
    List (String × Nat) :=
  (drillAux check indented blankVal (source_lines.length + 1)
    source_lines [] []).getD []

/-- Number of line numbers of the text not yet marked seen: the decreasing
measure of the drilling loop. -/
def unseenCount (len : Nat) (seen : List Nat) : Nat :=
  ((Finset.Icc 1 len).filter (fun i => i ∉ seen)).card

lemma drillPass_length {α : Type} (indented : α → Bool) (blankVal : α) :
    ∀ (wl : List (String × Nat)) (st : List α × List Nat × List (String × Nat) × Bool),
    ((wl.foldl (drillPassStep indented blankVal) st).1).length = st.1.length := by
  intro wl
  induction wl with
  | nil => intro st; rfl
  | cons w rest ih =>
    intro st
    rw [List.foldl_cons, ih]
    unfold drillPassStep
    by_cases h1 : w.2 ∈ st.2.1
    · rw [if_pos h1]
    · rw [if_neg h1]
      by_cases h2 : indented (st.1.getD (w.2 - 1) blankVal)
      · rw [if_pos h2]
      · rw [if_neg h2]
        exact List.length_set st.1 _ _

lemma drillPass_seen_mono {α : Type} (indented : α → Bool) (blankVal : α) :
    ∀ (wl : List (String × Nat)) (st : List α × List Nat × List (String × Nat) × Bool)
    (x : Nat), x ∈ st.2.1 → x ∈ (wl.foldl (drillPassStep indented blankVal) st).2.1 := by
  intro wl
  induction wl with
  | nil => intro st x hx; exact hx
  | cons w rest ih =>
    intro st x hx
    rw [List.foldl_cons]
    apply ih
    unfold drillPassStep
    by_cases h1 : w.2 ∈ st.2.1
    · rw [if_pos h1]; exact hx
    · rw [if_neg h1]
      by_cases h2 : indented (st.1.getD (w.2 - 1) blankVal)
      · rw [if_pos h2]; exact hx
      · rw [if_neg h2]; exact List.mem_cons_of_mem _ hx

lemma drillPass_progress {α : Type} (indented : α → Bool) (blankVal : α) (len : Nat) :
    ∀ (wl : List (String × Nat)),
    (∀ w ∈ wl, 1 ≤ w.2 ∧ w.2 ≤ len) →
    ∀ (st : List α × List Nat × List (String × Nat) × Bool),
    st.2.2.2 = false →
    (wl.foldl (drillPassStep indented blankVal) st).2.2.2 = true →
    ∃ x, x ∉ st.2.1 ∧ x ∈ (wl.foldl (drillPassStep indented blankVal) st).2.1 ∧
      1 ≤ x ∧ x ≤ len := by
  intro wl
  induction wl with
  | nil => intro _ st hst hfold; rw [List.foldl_nil] at hfold; rw [hst] at hfold; cases hfold
  | cons w rest ih =>
    intro hrange st hst hfold
    rw [List.foldl_cons] at hfold ⊢
    by_cases h1 : w.2 ∈ st.2.1
    · have he : drillPassStep indented blankVal st w = st := by
        unfold drillPassStep; rw [if_pos h1]
      rw [he] at hfold ⊢
      exact ih (fun v hv => hrange v (List.mem_cons_of_mem _ hv)) st hst hfold
    · by_cases h2 : indented (st.1.getD (w.2 - 1) blankVal)
      · have he : drillPassStep indented blankVal st w = st := by
          unfold drillPassStep; rw [if_neg h1, if_pos h2]
        rw [he] at hfold ⊢
        exact ih (fun v hv => hrange v (List.mem_cons_of_mem _ hv)) st hst hfold
      · have he : drillPassStep indented blankVal st w =
            (st.1.set (w.2 - 1) blankVal, w.2 :: st.2.1, st.2.2.1 ++ [w], true) := by
          unfold drillPassStep; rw [if_neg h1, if_neg h2]
        rw [he] at hfold ⊢
        refine ⟨w.2, h1, ?_, (hrange w (List.mem_cons_self w rest)).1,
          (hrange w (List.mem_cons_self w rest)).2⟩
        exact drillPass_seen_mono indented blankVal rest _ w.2 (List.mem_cons_self _ _)

lemma unseenCount_lt (len : Nat) (seen seen' : List Nat)
    (hsub : ∀ x ∈ seen, x ∈ seen') (x : Nat) (hx1 : 1 ≤ x) (hx2 : x ≤ len)
    (hxnot : x ∉ seen) (hxin : x ∈ seen') :
    unseenCount len seen' < unseenCount len seen := by
  apply Finset.card_lt_card
  rw [Finset.ssubset_iff_of_subset]
  · exact ⟨x, by simp [Finset.mem_filter, Finset.mem_Icc, hx1, hx2, hxnot, hxin]⟩
  · intro y hy
    rw [Finset.mem_filter] at hy ⊢
    exact ⟨hy.1, fun hmem => hy.2 (hsub y hmem)⟩

lemma drillAux_terminates {α : Type} (check : List α → List (String × Nat))
    (indented : α → Bool) (blankVal : α)
    (hrange : ∀ (ls : List α) (w : String × Nat), w ∈ check ls →
      1 ≤ w.2 ∧ w.2 ≤ ls.length) :
    ∀ (fuel : Nat) (lines : List α) (seen : List Nat) (ws : List (String × Nat)),
    unseenCount lines.length seen < fuel →
    drillAux check indented blankVal fuel lines seen ws ≠ none := by
  intro fuel
  induction fuel with
  | zero => intro lines seen ws h; omega
  | succ f ih =>
    intro lines seen ws h
    unfold drillAux
    by_cases hflag : ((check lines).foldl (drillPassStep indented blankVal)
        (lines, seen, ws, false)).2.2.2 = true
    · rw [if_pos hflag]
      apply ih
      obtain ⟨x, hxnot, hxin, hx1, hx2⟩ := drillPass_progress indented blankVal
        lines.length (check lines) (fun w hw => hrange lines w hw)
        (lines, seen, ws, false) rfl hflag
      have hlen : ((check lines).foldl (drillPassStep indented blankVal)
          (lines, seen, ws, false)).1.length = lines.length :=
        drillPass_length indented blankVal (check lines) (lines, seen, ws, false)
      rw [hlen]
      have hmono := drillPass_seen_mono indented blankVal (check lines)
        (lines, seen, ws, false)
      have hdec := unseenCount_lt lines.length seen _ (fun y hy => hmono y hy)
        x hx1 hx2 hxnot hxin
      omega
    · rw [if_neg hflag]
      exact Option.some_ne_none _

/-- C10: the warning-drilling loop terminates for every input: as long as
the checker reports only line numbers drawn from the lines of the working
text (whose length each pass preserves), every iteration that continues
the loop marks at least one previously unseen line number as seen, so the
number of iterations is bounded by the number of source lines plus one and
the loop with that much fuel always reaches its exit condition. -/
theorem C10_drill_terminates {α : Type} (check : List α → List (String × Nat))
    (indented : α → Bool) (blankVal : α)
    (hrange : ∀ (ls : List α) (w : String × Nat), w ∈ check ls →
      1 ≤ w.2 ∧ w.2 ≤ ls.length) (source_lines : List α) :
    drillAux check indented blankVal (source_lines.length + 1)
      source_lines [] [] ≠ none := by
  apply drillAux_terminates check indented blankVal hrange
  have : unseenCount source_lines.length [] ≤ source_lines.length := by
    unfold unseenCount
    calc ((Finset.Icc 1 source_lines.length).filter (fun i => i ∉ ([] : List Nat))).card
        ≤ (Finset.Icc 1 source_lines.length).card := Finset.card_filter_le _ _
      _ = source_lines.length := by rw [Nat.card_Icc]; omega
  omega

/-- A line of the single-import-per-line intermediate text, in the small
model used to exercise the drilling loop against the checker's contract: a
top-level from-import binding `name` from module `mod`, a code line using
some names, or a blank line. -/
inductive MLine
  | mimp (mod : String) (name : String)
  | muse (names : List String)
  | mblank
deriving DecidableEq, Repr

/-- Modelled from the spec: whether, scanning forward from just after a
binding of `name`, that binding is used before `name` is rebound
(later bindings shadow earlier ones). -/
def bindingUsed (name : String) : List MLine → Bool
  | [] => false
  | MLine.mimp _ n :: rest => if n = name then false else bindingUsed name rest
  | MLine.muse ns :: rest => if name ∈ ns then true else bindingUsed name rest
  | MLine.mblank :: rest => bindingUsed name rest

/-- Modelled from the spec: the external Unused-Symbol Checker (pyflakes).
It reports an `UnusedImport` warning `(qualified_name, lineno)` for import
bindings with no use, and only the first unused occurrence of a repeated
name per pass. -/
def checkerAux : List MLine → Nat → List String → List (String × Nat)
  | [], _, _ => []
  | MLine.mimp mod n :: rest, k, reported =>
    if n ∉ reported ∧ bindingUsed n rest = false then
      (mod ++ "." ++ n, k) :: checkerAux rest (k + 1) (n :: reported)
    else checkerAux rest (k + 1) reported
  | MLine.muse _ :: rest, k, reported => checkerAux rest (k + 1) reported
  | MLine.mblank :: rest, k, reported => checkerAux rest (k + 1) reported

/-- Modelled from the spec: the checker on a whole working text. -/
def modelChecker (lines : List MLine) : List (String × Nat) :=
  checkerAux lines 1 []

/-- In the model text no line is indented (the tool only drills top-level,
column-zero imports). -/
def mIndented : MLine → Bool := fun _ => false

lemma checkerAux_range :
    ∀ (lines : List MLine) (k : Nat) (reported : List String) (w : String × Nat),
    w ∈ checkerAux lines k reported → k ≤ w.2 ∧ w.2 < k + lines.length := by
  intro lines
  induction lines with
  | nil => intro k reported w hw; cases hw
  | cons l rest ih =>
    intro k reported w hw
    cases l with
    | mimp mod n =>
      rw [checkerAux] at hw
      by_cases hc : n ∉ reported ∧ bindingUsed n rest = false
      · rw [if_pos hc] at hw
        rcases List.mem_cons.mp hw with he | hw'
        · subst he
          refine ⟨Nat.le_refl k, ?_⟩
          simp only [List.length_cons]
          omega
        · have := ih (k + 1) (n :: reported) w hw'
          simp only [List.length_cons]
          omega
      · rw [if_neg hc] at hw
        have := ih (k + 1) reported w hw
        simp only [List.length_cons]
        omega
    | muse ns =>
      rw [checkerAux] at hw
      have := ih (k + 1) reported w hw
      simp only [List.length_cons]
      omega
    | mblank =>
      rw [checkerAux] at hw
      have := ih (k + 1) reported w hw
      simp only [List.length_cons]
      omega

lemma modelChecker_range (lines : List MLine) (w : String × Nat)
    (hw : w ∈ modelChecker lines) : 1 ≤ w.2 ∧ w.2 ≤ lines.length := by
  have := checkerAux_range lines 1 [] w hw
  omega

/-- C10 (witness): the termination bound applied to the modelled checker on
a two-line file with two duplicate unused bindings. -/
theorem C10_witness :
    drillAux modelChecker mIndented MLine.mblank
      (([MLine.mimp "a" "x", MLine.mimp "b" "x"] : List MLine).length + 1)
      [MLine.mimp "a" "x", MLine.mimp "b" "x"] [] [] ≠ none :=
  C10_drill_terminates modelChecker mIndented MLine.mblank
    (fun ls w hw => modelChecker_range ls w hw)
    [MLine.mimp "a" "x", MLine.mimp "b" "x"]

/-- The import declarations the reparse of a model file produces: one
from-import node per `mimp` line with its 1-based line number. -/
def mlineNodes : List MLine → Nat → List ImportNode
  | [], _ => []
  | MLine.mimp mod n :: rest, k =>
    ⟨true, some mod, 0, [⟨n, none⟩], k, false, false⟩ :: mlineNodes rest (k + 1)
  | _ :: rest, k => mlineNodes rest (k + 1)

/-- The drill-then-remove stage of the pipeline on a model file. -/
def drillAndRemove (file : List MLine) : List ImportNode :=
  (_remove_unused_names (mlineNodes file 1)
    (_drill_for_warnings modelChecker mIndented MLine.mblank file)).1

/-- C3: for a file whose first two lines are duplicate bindings of the same
name `n` from distinct modules, with no suppression: if `n` is never used,
the iterative reparse-and-recheck loop surfaces both occurrences (one per
pass) and both bindings are removed; if `n` is used after the imports,
exactly the shadowed first binding is removed and the second one survives. -/
theorem C3_duplicate_bindings (k1 k2 n : String)
    (hk1 : k1 ≠ "") (hk2 : k2 ≠ "") :
    drillAndRemove [MLine.mimp k1 n, MLine.mimp k2 n] = [] ∧
    drillAndRemove [MLine.mimp k1 n, MLine.mimp k2 n, MLine.muse [n]] =
      [⟨true, some k2, 0, [⟨n, none⟩], 2, false, false⟩] := by
  constructor
  · simp [drillAndRemove, _drill_for_warnings, drillAux, drillPassStep,
      modelChecker, checkerAux, bindingUsed, mIndented, mlineNodes,
      _remove_unused_names, removeOne, warningKey, aliasText, joinDot,
      strRepeat, headAlias, hk1, hk2]
  · simp [drillAndRemove, _drill_for_warnings, drillAux, drillPassStep,
      modelChecker, checkerAux, bindingUsed, mIndented, mlineNodes,
      _remove_unused_names, removeOne, warningKey, aliasText, joinDot,
      strRepeat, headAlias, hk1, hk2]

/-- C3 (witness): the duplicate-binding behaviour at the concrete file
`from a import x` / `from b import x`, without and with a use of `x`. -/
theorem C3_witness :
    drillAndRemove [MLine.mimp "a" "x", MLine.mimp "b" "x"] = [] ∧
    drillAndRemove [MLine.mimp "a" "x", MLine.mimp "b" "x", MLine.muse ["x"]] =
      [⟨true, some "b", 0, [⟨"x", none⟩], 2, false, false⟩] :=
  C3_duplicate_bindings "a" "b" "x" (by decide) (by decide)

end Zimports
